import Mathlib

/-!
Verification of the openclaw-china channel supervisors.

This file gives a shallow embedding of the pure cores of the repository:

* the DingTalk reconnect backoff policy (`resolveReconnectDelayMs`);
* the DingTalk message dedup cache (`isDuplicateMessage`,
  `trimMessageDedupeCache`) and the inbound ACK/dedup/dispatch decision of
  `processDingtalkInbound`;
* the WeCom webhook crypto envelope (`WXBizJsonMsgCrypt.encrypt` /
  `WXBizJsonMsgCrypt.decrypt` / `WXBizJsonMsgCrypt.getSignature`), with the
  external AES-256-CBC block cipher and the base64 transport of node:crypto
  modelled at their interface by an abstract cipher/decipher pair, and SHA-1
  modelled as an abstract digest function (the repository code only builds
  the hash input);
* the wecom-app streaming-reply state (`truncateUtf8Bytes`,
  `splitMessageByBytes`, `buildStreamReplyFromState`,
  `buildStreamPlaceholderReply`, `pruneStreams`) and the routing decision of
  `handleWecomAppWebhookRequest` after decryption;
* the DingTalk singleton-monitor guard of `monitorDingtalkProvider`;
* the QQ gateway reconnect scheduling of `scheduleReconnect` and the
  invalid-session opcode handling.

Byte strings are `List ℕ` (each entry one byte), timestamps are `ℤ`
milliseconds, and JavaScript's IEEE arithmetic in the backoff policy is
modelled over `ℚ` (exact in the relevant range).  The UTF-8 encoder and the
WHATWG-style replacement decoder model Node's Buffer.from(s, "utf8") and
Buffer.prototype.toString("utf8").
-/

/-- UTF-8 encoding of one Unicode code point, as produced by Node's
Buffer.from(text, "utf8") for well-formed strings. -/
def encodeCharUtf8 (cp : ℕ) : List ℕ :=
  if cp < 128 then [cp]
  else if cp < 2048 then [192 + cp / 64, 128 + cp % 64]
  else if cp < 65536 then [224 + cp / 4096, 128 + cp / 64 % 64, 128 + cp % 64]
  else [240 + cp / 262144, 128 + cp / 4096 % 64, 128 + cp / 64 % 64, 128 + cp % 64]

/-- UTF-8 bytes of a string (Buffer.from(s, "utf8")). -/
def utf8Encode (s : String) : List ℕ :=
  s.data.flatMap (fun c => encodeCharUtf8 c.toNat)

/-- Buffer.byteLength(s, "utf8"). -/
def utf8ByteLength (s : String) : ℕ :=
  (utf8Encode s).length

/-- One step of WHATWG UTF-8 decoding: consumes one code point (or one
maximal invalid subpart, yielding U+FFFD = 65533) from the front of the
byte list and returns the decoded code point together with the remaining
bytes; decoding resumes at the byte that failed. -/
def utf8DecodeStep : List ℕ → ℕ × List ℕ
  | [] => (65533, [])
  | b :: rest =>
    if b ≤ 127 then (b, rest)
    else if b < 194 then (65533, rest)
    else if b ≤ 223 then
      match rest with
      | [] => (65533, [])
      | b2 :: rest2 =>
        if 128 ≤ b2 ∧ b2 ≤ 191 then ((b - 192) * 64 + (b2 - 128), rest2)
        else (65533, b2 :: rest2)
    else if b ≤ 239 then
      match rest with
      | [] => (65533, [])
      | b2 :: rest2 =>
        if (if b = 224 then 160 else 128) ≤ b2 ∧ b2 ≤ (if b = 237 then 159 else 191) then
          match rest2 with
          | [] => (65533, [])
          | b3 :: rest3 =>
            if 128 ≤ b3 ∧ b3 ≤ 191 then
              ((b - 224) * 4096 + (b2 - 128) * 64 + (b3 - 128), rest3)
            else (65533, b3 :: rest3)
        else (65533, b2 :: rest2)
    else if b ≤ 244 then
      match rest with
      | [] => (65533, [])
      | b2 :: rest2 =>
        if (if b = 240 then 144 else 128) ≤ b2 ∧ b2 ≤ (if b = 244 then 143 else 191) then
          match rest2 with
          | [] => (65533, [])
          | b3 :: rest3 =>
            if 128 ≤ b3 ∧ b3 ≤ 191 then
              match rest3 with
              | [] => (65533, [])
              | b4 :: rest4 =>
                if 128 ≤ b4 ∧ b4 ≤ 191 then
                  ((b - 240) * 262144 + (b2 - 128) * 4096 + (b3 - 128) * 64 + (b4 - 128), rest4)
                else (65533, b4 :: rest4)
            else (65533, b3 :: rest3)
        else (65533, b2 :: rest2)
    else (65533, rest)

/-- WHATWG UTF-8 decoding to code points with U+FFFD replacement, as
performed by Buffer.prototype.toString("utf8"). -/
def utf8DecodeCodepoints : List ℕ → List ℕ
  | [] => []
  | b :: rest =>
    (utf8DecodeStep (b :: rest)).1 :: utf8DecodeCodepoints (utf8DecodeStep (b :: rest)).2
  termination_by l => l.length
  decreasing_by
    simp only [utf8DecodeStep]
    repeat' split
    all_goals simp_all [List.length_cons]
    all_goals omega

/-- Buffer.prototype.toString("utf8") on a byte list. -/
def utf8DecodeStr (bytes : List ℕ) : String :=
  String.mk ((utf8DecodeCodepoints bytes).map Char.ofNat)

/-- Model of resolveReconnectDelayMs from the DingTalk monitor
(src/unnamed/part_001, lines 217-224): exponential backoff with base
1000 ms, doubled per attempt, capped at 60000 ms, with a jitter factor of
1 + (2r - 1) / 5 for the clamped random value r, rounded to the nearest
millisecond (Math.round = floor(x + 1/2)) and floored at 1000 ms.
IEEE doubles are exact on every value reached here, so ℚ is faithful. -/
def resolveReconnectDelayMs (attempt : ℤ) (randomValue : ℚ) : ℤ :=
  let safeAttempt : ℤ := max 1 attempt
  let expoBase : ℚ := 1000 * 2 ^ (safeAttempt - 1).toNat
  let boundedBase : ℚ := min 60000 expoBase
  let normalizedRandom : ℚ := min 1 (max 0 randomValue)
  let jitter : ℚ := (normalizedRandom * 2 - 1) * (1 / 5)
  max 1000 (round (boundedBase * (1 + jitter)))

/-- Modelled from the spec: reconnect delay is "exponential backoff base
1000ms, doubling per attempt, capped at 60000ms, ±20% uniform jitter,
floor of 1000ms", with the uniform random draw r ∈ [0,1] mapped linearly
onto the ±20% jitter interval. -/
def specBackoffDelayMs (attempt : ℤ) (randomValue : ℚ) : ℤ :=
  let base : ℚ := min 60000 (1000 * 2 ^ (max 1 attempt - 1).toNat)
  let r : ℚ := min 1 (max 0 randomValue)
  max 1000 (round (base * (1 + (r * 2 - 1) * (1 / 5))))

/-- Dedup cache of the DingTalk stream handler (src/unnamed/part_002): a
JavaScript Map from stream message id to the timestamp first seen,
modelled as an insertion-ordered association list. -/
abbrev DedupCache := List (String × ℤ)

/-- Map.prototype.get. -/
def mapGet (m : DedupCache) (k : String) : Option ℤ :=
  (m.find? (fun e => e.1 == k)).map (fun e => e.2)

/-- Map.prototype.set: updates the value in place when the key is present
(keeping insertion order), otherwise appends at the end. -/
def mapSet : DedupCache → String → ℤ → DedupCache
  | [], k, v => [(k, v)]
  | e :: rest, k, v => if e.1 = k then (k, v) :: rest else e :: mapSet rest k v

/-- Map.prototype.delete of the (unique) entry with the given key. -/
def mapDelete : DedupCache → String → DedupCache
  | [], _ => []
  | e :: rest, k => if e.1 = k then rest else e :: mapDelete rest k

/-- Size-eviction loop of trimMessageDedupeCache: while more than
MESSAGE_DEDUP_MAX_ENTRIES (10000) entries remain, delete the oldest
(first in insertion order). -/
def evictOldest : DedupCache → DedupCache
  | [] => []
  | e :: rest => if 10000 < rest.length + 1 then evictOldest rest else e :: rest

/-- Model of trimMessageDedupeCache (src/unnamed/part_002, lines 28-42):
drop every entry older than the 60000 ms TTL, then evict oldest-first
down to the 10000-entry cap. -/
def trimMessageDedupeCache (now : ℤ) (m : DedupCache) : DedupCache :=
  evictOldest (m.filter (fun e => decide (now - e.2 ≤ 60000)))

/-- Model of isDuplicateMessage (src/unnamed/part_002, lines 44-55):
returns whether the id is a duplicate within the TTL window and the
updated cache. -/
def isDuplicateMessage (streamMessageId : String) (now : ℤ) (m : DedupCache) :
    Bool × DedupCache :=
  match mapGet m streamMessageId with
  | some previous =>
    if now - previous < 60000 then (true, m)
    else
      (false, trimMessageDedupeCache now
        (mapSet (mapDelete m streamMessageId) streamMessageId now))
  | none => (false, trimMessageDedupeCache now (mapSet m streamMessageId now))

/-- Observable outcome of one inbound delivery processed by
processDingtalkInbound: whether the frame was ACKed back to the
transport, whether it was counted as a dedupe hit, and whether it was
handed to the downstream dispatch path. -/
structure InboundOutcome where
  ackAttempted : Bool
  dedupeHit : Bool
  dispatched : Bool
  deriving DecidableEq, Repr

/-- Model of processDingtalkInbound (src/unnamed/part_002, lines 96-160):
ACK first (unconditionally, when a stream message id is present), then
drop duplicates within the TTL window, then parse and dispatch
fire-and-forget.  parseOk abstracts whether JSON.parse of the payload
succeeds. -/
def processDingtalkInbound (cache : DedupCache) (streamMessageId : Option String)
    (now : ℤ) (parseOk : Bool) : InboundOutcome × DedupCache :=
  match streamMessageId with
  | none =>
    (⟨false, false, parseOk⟩, cache)
  | some mid =>
    let r := isDuplicateMessage mid now cache
    if r.1 then (⟨true, true, false⟩, r.2)
    else (⟨true, false, parseOk⟩, r.2)

/-- Big-endian 4-byte encoding, Buffer.prototype.writeUInt32BE (the source
only calls it with values below 2^32). -/
def writeUInt32BE (n : ℕ) : List ℕ :=
  [n / 16777216 % 256, n / 65536 % 256, n / 256 % 256, n % 256]

/-- Big-endian 4-byte read, Buffer.prototype.readUInt32BE at the front of
the list. -/
def readUInt32BE : List ℕ → ℕ
  | a :: b :: c :: d :: _ => a * 16777216 + b * 65536 + c * 256 + d
  | _ => 0

namespace WXBizJsonMsgCrypt

/-- Model of WXBizJsonMsgCrypt.encrypt (src/extensions/wecom/src/crypto.ts,
lines 113-137).  The plaintext envelope is
[16 random bytes][4-byte big-endian byte length of content][content]
[receiverId], PKCS#7-padded to a 32-byte boundary.  The AES-256-CBC
primitive of node:crypto (key = base64-decoded EncodingAESKey, IV = first
16 key bytes) and the base64 transport are external library calls,
modelled at their interface by the abstract cipher argument; the result is
the ciphertext byte string. -/
def encrypt (cipher : List ℕ → List ℕ) (receiverId : String) (random : List ℕ)
    (text : String) : List ℕ :=
  let content := utf8Encode text
  let receiverIdBuf := utf8Encode receiverId
  let lenBuf := writeUInt32BE content.length
  let plain := random ++ lenBuf ++ content ++ receiverIdBuf
  let padLen := 32 - plain.length % 32
  cipher (plain ++ List.replicate padLen padLen)

/-- Model of WXBizJsonMsgCrypt.decrypt (src/extensions/wecom/src/crypto.ts,
lines 84-108), with the AES-256-CBC decryption of node:crypto modelled by
the abstract decipher argument: strip the PKCS#7 pad indicated by the last
byte (when it lies in 1..32), read the 4-byte big-endian content length at
offset 16, slice the content, and compare the trailing receiverId (errors,
as the source throws, on mismatch; reading the length field requires at
least 20 bytes, as readUInt32BE throws otherwise). -/
def decrypt (decipher : List ℕ → List ℕ) (receiverId : String) (encrypted : List ℕ) :
    Except String String :=
  let decrypted := decipher encrypted
  let pad := (decrypted.getLast?).getD 0
  let stripped :=
    if 0 < pad ∧ pad ≤ 32 then decrypted.take (decrypted.length - pad) else decrypted
  if stripped.length < 20 then .error "out of range"
  else
    let contentLen := readUInt32BE (stripped.drop 16)
    let content := utf8DecodeStr ((stripped.drop 20).take contentLen)
    let fromReceiverId := utf8DecodeStr (stripped.drop (20 + contentLen))
    if receiverId ≠ "" ∧ fromReceiverId ≠ receiverId then
      .error "ReceiverId mismatch"
    else .ok content

/-- Lexicographic comparison of char lists by code point; JavaScript's
default Array.prototype.sort comparator on strings (code-unit order, which
agrees with code-point order on the inputs considered here). -/
def charListLe : List Char → List Char → Bool
  | [], _ => true
  | _ :: _, [] => false
  | a :: as, b :: bs =>
    if a.toNat < b.toNat then true
    else if b.toNat < a.toNat then false
    else charListLe as bs

/-- String order used to model [token, timestamp, nonce, encrypt].sort(). -/
def jsStrLe (s t : String) : Prop := charListLe s.data t.data = true

instance : DecidableRel jsStrLe := fun s t => by
  unfold jsStrLe; infer_instance

/-- Hash input built by WXBizJsonMsgCrypt.getSignature
(src/extensions/wecom/src/crypto.ts, lines 74-79): the four values sorted
lexicographically and concatenated. -/
def getSignatureInput (token timestamp nonce encrypt : String) : String :=
  String.join (List.insertionSort jsStrLe [token, timestamp, nonce, encrypt])

/-- Model of WXBizJsonMsgCrypt.getSignature: SHA-1 hex digest (an external
node:crypto primitive, modelled by the abstract sha1Hex argument) of the
sorted concatenation. -/
def getSignature (sha1Hex : String → String) (token timestamp nonce encrypt : String) :
    String :=
  sha1Hex (getSignatureInput token timestamp nonce encrypt)

end WXBizJsonMsgCrypt

/-- StreamState of the wecom-app monitor
(src/extensions/wecom-app/src/monitor.ts, lines 41-50). -/
structure StreamState where
  streamId : String
  msgid : Option String
  createdAt : ℤ
  updatedAt : ℤ
  started : Bool
  finished : Bool
  error : Option String
  content : String
  deriving DecidableEq, Repr

/-- The encrypted stream reply payload {msgtype:"stream", stream:{id,
finish, content}} built by the wecom-app webhook handler. -/
structure StreamReplyPayload where
  id : String
  finish : Bool
  content : String
  deriving DecidableEq, Repr

/-- Model of truncateUtf8Bytes (src/extensions/wecom-app/src/monitor.ts,
lines 84-89): if the UTF-8 encoding fits in maxBytes return the text
unchanged, otherwise keep the LAST maxBytes bytes of the encoding and
decode them back to a string (Buffer.prototype.toString("utf8"), with
U+FFFD replacement on a mid-character cut). -/
def truncateUtf8Bytes (text : String) (maxBytes : ℕ) : String :=
  let buf := utf8Encode text
  if buf.length ≤ maxBytes then text
  else utf8DecodeStr (buf.drop (buf.length - maxBytes))

/-- One step of the splitMessageByBytes loop
(src/extensions/wecom-app/src/monitor.ts, lines 103-115), operating on the
accumulator (finished chunks, current chunk, current chunk byte count).
JavaScript's for..of iterates code points, i.e. the chars of the
string. -/
def splitStep (maxBytes : ℕ) (acc : List (List Char) × List Char × ℕ) (c : Char) :
    List (List Char) × List Char × ℕ :=
  let charBytes := (encodeCharUtf8 c.toNat).length
  if maxBytes < acc.2.2 + charBytes ∧ acc.2.1 ≠ [] then
    (acc.1 ++ [acc.2.1], [c], charBytes)
  else
    (acc.1, acc.2.1 ++ [c], acc.2.2 + charBytes)

/-- Model of splitMessageByBytes (src/extensions/wecom-app/src/monitor.ts,
lines 98-123): split a text into chunks of at most maxBytes UTF-8 bytes,
never splitting inside a character. -/
def splitMessageByBytes (text : String) (maxBytes : ℕ) : List String :=
  let acc := text.data.foldl (splitStep maxBytes) ([], [], 0)
  (if acc.2.1 ≠ [] then acc.1 ++ [acc.2.1] else acc.1).map String.mk

/-- buildStreamPlaceholderReply (src/extensions/wecom-app/src/monitor.ts,
lines 234-243): immediate placeholder with finish:false and filler
text. -/
def buildStreamPlaceholderReply (streamId : String) : StreamReplyPayload :=
  ⟨streamId, false, "稍等~"⟩

/-- buildStreamReplyFromState (src/extensions/wecom-app/src/monitor.ts,
lines 245-255): the stream's current finish flag and its accumulated
content truncated to STREAM_MAX_BYTES = 512000. -/
def buildStreamReplyFromState (state : StreamState) : StreamReplyPayload :=
  ⟨state.streamId, state.finished, truncateUtf8Bytes state.content 512000⟩

/-- Lookup in the module-level streams map (keyed by stream id). -/
def lookupStream (streams : List (String × StreamState)) (id : String) :
    Option StreamState :=
  ((streams.find? (fun e => e.1 == id))).map (fun e => e.2)

/-- Lookup in the module-level msgid → streamId map. -/
def lookupMsgid (msgidToStreamId : List (String × String)) (msgid : String) :
    Option String :=
  ((msgidToStreamId.find? (fun e => e.1 == msgid))).map (fun e => e.2)

/-- Model of pruneStreams (src/extensions/wecom-app/src/monitor.ts, lines
70-82) acting on the streams map: drop every stream whose updatedAt is
older than the 10-minute TTL cutoff. -/
def pruneStreams (now : ℤ) (streams : List (String × StreamState)) :
    List (String × StreamState) :=
  streams.filter (fun e => decide (now - 600000 ≤ e.2.updatedAt))

/-- Routing decision taken by handleWecomAppWebhookRequest for one decrypted
inbound message: either respond (status 200, an encrypted JSON envelope of
the given stream reply or of the empty event-ack object) without starting
agent processing, or create a new stream, start agent processing, and
respond with the placeholder. -/
inductive WebhookDecision
  | respondStream (status : ℕ) (reply : StreamReplyPayload)
  | respondEventAck (status : ℕ)
  | startProcessing (streamId : String) (status : ℕ) (reply : StreamReplyPayload)
  deriving DecidableEq, Repr

/-- Model of the post-decryption routing of handleWecomAppWebhookRequest
(src/extensions/wecom-app/src/monitor.ts, lines 587-684 and 798-810):
first msgtype=stream refresh requests (answered from the stored
StreamState, or with an empty finished reply when the id is unknown),
then redelivered msgids (answered with the placeholder for the already
existing stream), then events (empty ack), and otherwise a fresh stream
is created and agent processing starts. -/
def routeWecomAppMessage (streams : List (String × StreamState))
    (msgidToStreamId : List (String × String)) (msgtype : String)
    (streamIdParam : String) (msgid : Option String) (newStreamId : String)
    (now : ℤ) : WebhookDecision :=
  if msgtype = "stream" then
    match (if streamIdParam = "" then none else lookupStream streams streamIdParam) with
    | some state => .respondStream 200 (buildStreamReplyFromState state)
    | none =>
      .respondStream 200 (buildStreamReplyFromState
        { streamId := if streamIdParam = "" then "unknown" else streamIdParam
          msgid := none
          createdAt := now
          updatedAt := now
          started := true
          finished := true
          error := none
          content := "" })
  else
    match msgid.bind (fun m => lookupMsgid msgidToStreamId m) with
    | some sid => .respondStream 200 (buildStreamPlaceholderReply sid)
    | none =>
      if msgtype = "event" then .respondEventAck 200
      else .startProcessing newStreamId 200 (buildStreamPlaceholderReply newStreamId)

/-- Module-level singleton state of the DingTalk monitor
(src/unnamed/part_001, lines 62-65): the in-flight promise (identified by
an abstract token) and the account id it runs for. -/
structure DingtalkModuleState where
  currentPromise : Option ℕ
  currentAccountId : Option String
  deriving DecidableEq, Repr

/-- Result of the start guard at the top of monitorDingtalkProvider. -/
inductive DingtalkStartResult
  | reused (promise : ℕ)
  | errorAccountMismatch (running : String)
  | startedNew
  deriving DecidableEq, Repr

/-- Model of the guard at the top of monitorDingtalkProvider
(src/unnamed/part_001, lines 443-449): when a monitor promise is active,
a mismatched account id throws and a matching (or absent) account id
returns the same in-flight promise; only when no promise is active does a
new supervisor loop start. -/
def monitorDingtalkStartGuard (st : DingtalkModuleState) (accountId : String) :
    DingtalkStartResult :=
  match st.currentPromise with
  | some p =>
    match st.currentAccountId with
    | some running =>
      if running ≠ accountId then .errorAccountMismatch running else .reused p
    | none => .reused p
  | none => .startedNew

/-- State of one QQ gateway monitor invocation
(src/extensions/qqbot/src/monitor.ts, lines 77-109): pendingReconnects
counts scheduled reconnect timers (the source holds at most one timer in
the reconnectTimer variable). -/
structure QQGatewayState where
  stopped : Bool
  pendingReconnects : ℕ
  heartbeatTimer : Bool
  reconnectAttempt : ℕ
  sessionId : Option String
  lastSeq : Option ℤ
  tokenCached : Bool
  socketOpen : Bool
  deriving DecidableEq, Repr

/-- clearTimers (src/extensions/qqbot/src/monitor.ts, lines 86-95). -/
def clearTimers (st : QQGatewayState) : QQGatewayState :=
  { st with heartbeatTimer := false, pendingReconnects := 0 }

/-- cleanupSocket (src/extensions/qqbot/src/monitor.ts, lines 97-109):
clear the timers and close the socket. -/
def cleanupSocket (st : QQGatewayState) : QQGatewayState :=
  { clearTimers st with socketOpen := false }

/-- Model of scheduleReconnect (src/extensions/qqbot/src/monitor.ts, lines
136-147): no-op when stopped, no-op when a reconnect timer is already
pending (the single reconnect-timer guard), otherwise schedule one timer
and advance the attempt counter. -/
def scheduleReconnect (st : QQGatewayState) : QQGatewayState :=
  if st.stopped then st
  else if st.pendingReconnects ≠ 0 then st
  else { st with pendingReconnects := st.pendingReconnects + 1,
                 reconnectAttempt := st.reconnectAttempt + 1 }

/-- Model of the invalid-session opcode (9) branch of handleGatewayPayload
(src/extensions/qqbot/src/monitor.ts, lines 211-217): clear session id and
last sequence, clear the cached access token, close the socket, schedule a
reconnect. -/
def handleInvalidSession (st : QQGatewayState) : QQGatewayState :=
  scheduleReconnect (cleanupSocket
    { st with sessionId := none, lastSeq := none, tokenCached := false })

/-- Model of the reconnect opcode (7) branch of handleGatewayPayload
(src/extensions/qqbot/src/monitor.ts, lines 207-210). -/
def handleServerReconnect (st : QQGatewayState) : QQGatewayState :=
  scheduleReconnect (cleanupSocket st)

/-- Model of the socket close handler (src/extensions/qqbot/src/monitor.ts,
lines 282-286). -/
def handleSocketClose (st : QQGatewayState) : QQGatewayState :=
  scheduleReconnect (cleanupSocket st)

/-- The reconnect-scheduling events of the QQ gateway. -/
inductive QQReconnectEvent
  | invalidSession
  | serverReconnect
  | socketClose
  deriving DecidableEq, Repr

/-- One reconnect-scheduling event step. -/
def qqStep (st : QQGatewayState) : QQReconnectEvent → QQGatewayState
  | .invalidSession => handleInvalidSession st
  | .serverReconnect => handleServerReconnect st
  | .socketClose => handleSocketClose st

/-! Theorems. -/

theorem round_le_round_q {x y : ℚ} (h : x ≤ y) : round x ≤ round y := by
  rw [round_eq, round_eq]
  exact Int.floor_le_floor (by linarith)

/-- C1: for every attempt ≥ 1 and fixed random value r ∈ [0,1],
resolveReconnectDelayMs is deterministic (it is a pure function of
(attempt, r)), always ≥ 1000 ms, always ≤ 60000 × 1.2 = 72000 ms,
equals the spec's backoff formula (base 1000 ms doubled per attempt,
capped at 60000 ms, ±20% jitter, floor 1000 ms), is non-decreasing in
attempt for every fixed r (hence also in expectation), and takes the
values 1000 at (1, 0.5) and 60000 at (10, 0.5). -/
theorem resolveReconnectDelayMs_spec (attempt attempt2 : ℤ) (r : ℚ)
    (h1 : 1 ≤ attempt) (hr0 : 0 ≤ r) (hr1 : r ≤ 1) (h12 : attempt ≤ attempt2) :
    1000 ≤ resolveReconnectDelayMs attempt r ∧
    resolveReconnectDelayMs attempt r ≤ 72000 ∧
    resolveReconnectDelayMs attempt r ≤ resolveReconnectDelayMs attempt2 r ∧
    resolveReconnectDelayMs attempt r = specBackoffDelayMs attempt r ∧
    resolveReconnectDelayMs 1 (1 / 2) = 1000 ∧
    resolveReconnectDelayMs 10 (1 / 2) = 60000 := by
  have hjit : ∀ q : ℚ, 4 / 5 ≤ 1 + (min 1 (max 0 q) * 2 - 1) * (1 / 5) ∧
      1 + (min 1 (max 0 q) * 2 - 1) * (1 / 5) ≤ 6 / 5 := by
    intro q
    constructor <;>
      · have h0 : (0 : ℚ) ≤ min 1 (max 0 q) := le_min (by norm_num) (le_max_left 0 q) |>.trans
          (le_refl _)
        have h1q : min 1 (max 0 q) ≤ 1 := min_le_left 1 (max 0 q)
        have h0q : (0 : ℚ) ≤ max 0 q := le_max_left 0 q
        have : (0 : ℚ) ≤ min 1 (max 0 q) := le_min (by norm_num) h0q
        nlinarith
  have hbb : ∀ a : ℤ, (0 : ℚ) ≤ min 60000 (1000 * 2 ^ (max 1 a - 1).toNat) ∧
      min 60000 ((1000 : ℚ) * 2 ^ (max 1 a - 1).toNat) ≤ 60000 := by
    intro a
    refine ⟨le_min (by norm_num) ?_, min_le_left _ _⟩
    positivity
  refine ⟨le_max_left _ _, ?_, ?_, rfl, ?_, ?_⟩
  · refine max_le (by norm_num) ?_
    have h1' := (hjit r).2
    have h1'' := (hjit r).1
    have h2' := (hbb attempt).2
    have h0' := (hbb attempt).1
    have h3' : min 60000 ((1000 : ℚ) * 2 ^ (max 1 attempt - 1).toNat) *
        (1 + (min 1 (max 0 r) * 2 - 1) * (1 / 5)) ≤ 72000 := by
      have hm := mul_le_mul h2' h1' (by linarith) (by norm_num : (0 : ℚ) ≤ 60000)
      linarith
    calc round (min 60000 ((1000 : ℚ) * 2 ^ (max 1 attempt - 1).toNat) *
            (1 + (min 1 (max 0 r) * 2 - 1) * (1 / 5)))
        ≤ round ((72000 : ℚ)) := round_le_round_q h3'
      _ = 72000 := by norm_num
  · refine max_le_max (le_refl _) ?_
    refine round_le_round_q ?_
    have hjp := (hjit r).1
    have hmono : min (60000 : ℚ) (1000 * 2 ^ (max 1 attempt - 1).toNat) ≤
        min 60000 (1000 * 2 ^ (max 1 attempt2 - 1).toNat) := by
      refine min_le_min (le_refl _) ?_
      have : (max 1 attempt - 1).toNat ≤ (max 1 attempt2 - 1).toNat := by
        have : max 1 attempt ≤ max 1 attempt2 := max_le_max (le_refl _) h12
        omega
      have h2 : (1 : ℚ) ≤ 2 := by norm_num
      exact mul_le_mul_of_nonneg_left (pow_le_pow_right₀ h2 this) (by norm_num)
    have h0' := (hbb attempt).1
    have hjp2 : (0 : ℚ) ≤ 1 + (min 1 (max 0 r) * 2 - 1) * (1 / 5) := by linarith
    exact mul_le_mul_of_nonneg_right hmono hjp2
  · simp only [resolveReconnectDelayMs]
    norm_num [round_eq, min_def, max_def]
  · simp only [resolveReconnectDelayMs]
    norm_num [round_eq, min_def, max_def, show ((9 : ℤ)).toNat = 9 from rfl]

/-- Witness for C1 at attempt = 1, attempt2 = 2, r = 1/2. -/
theorem resolveReconnectDelayMs_spec_witness :
    1000 ≤ resolveReconnectDelayMs 1 (1 / 2) ∧
    resolveReconnectDelayMs 1 (1 / 2) ≤ 72000 ∧
    resolveReconnectDelayMs 1 (1 / 2) ≤ resolveReconnectDelayMs 2 (1 / 2) ∧
    resolveReconnectDelayMs 1 (1 / 2) = specBackoffDelayMs 1 (1 / 2) ∧
    resolveReconnectDelayMs 1 (1 / 2) = 1000 ∧
    resolveReconnectDelayMs 10 (1 / 2) = 60000 :=
  resolveReconnectDelayMs_spec 1 2 (1 / 2) (by norm_num) (by norm_num) (by norm_num)
    (by norm_num)

/-- C8: whenever a DingTalk monitor run is active (currentPromise set, and
with it the running account id), calling monitorDingtalkProvider again
with the same accountId returns the same in-flight promise, calling it
with a different accountId throws, and in no case does a second
supervisor loop start — so two concurrently active supervisor loops for
the channel never exist. -/
theorem monitorDingtalkStartGuard_spec (st : DingtalkModuleState)
    (accountId : String) (p : ℕ) (hp : st.currentPromise = some p) :
    (st.currentAccountId = some accountId →
      monitorDingtalkStartGuard st accountId = .reused p) ∧
    (∀ other, st.currentAccountId = some other → other ≠ accountId →
      monitorDingtalkStartGuard st accountId = .errorAccountMismatch other) ∧
    monitorDingtalkStartGuard st accountId ≠ .startedNew := by
  unfold monitorDingtalkStartGuard
  rw [hp]
  refine ⟨?_, ?_, ?_⟩
  · intro hacc
    rw [hacc]
    simp
  · intro other hacc hne
    rw [hacc]
    simp [hne]
  · cases hacc : st.currentAccountId with
    | none => simp
    | some running =>
      by_cases hne : running ≠ accountId <;> simp [hne]

/-- Witness for C8 at a concrete active state. -/
theorem monitorDingtalkStartGuard_spec_witness :
    ((DingtalkModuleState.mk (some 7) (some "default")).currentAccountId
        = some "default" →
      monitorDingtalkStartGuard ⟨some 7, some "default"⟩ "default" = .reused 7) ∧
    (∀ other,
      (DingtalkModuleState.mk (some 7) (some "default")).currentAccountId = some other →
      other ≠ "default" →
      monitorDingtalkStartGuard ⟨some 7, some "default"⟩ "default"
        = .errorAccountMismatch other) ∧
    monitorDingtalkStartGuard ⟨some 7, some "default"⟩ "default" ≠ .startedNew :=
  monitorDingtalkStartGuard_spec ⟨some 7, some "default"⟩ "default" 7 rfl

theorem qqStep_pending_le_one (st : QQGatewayState) (e : QQReconnectEvent) :
    (qqStep st e).pendingReconnects ≤ 1 := by
  cases e <;>
    simp only [qqStep, handleInvalidSession, handleServerReconnect, handleSocketClose,
      scheduleReconnect, cleanupSocket, clearTimers] <;>
    split <;> simp

theorem qq_fold_pending_le_one (evs : List QQReconnectEvent) (st : QQGatewayState)
    (h : st.pendingReconnects ≤ 1) :
    (evs.foldl qqStep st).pendingReconnects ≤ 1 := by
  induction evs generalizing st with
  | nil => exact h
  | cons e evs ih =>
    exact ih (qqStep st e) (qqStep_pending_le_one st e)

/-- C9: in the QQ gateway supervisor, receiving an invalid-session payload
(opcode 9) clears the stored session id and lastSeq, clears the cached
access token, closes the socket, and (unless the monitor is stopped)
leaves exactly one scheduled reconnect; and across any sequence of close
events and reconnect/invalid-session opcodes the single reconnect-timer
guard keeps at most one reconnect pending at any time. -/
theorem qq_invalid_session_spec (st : QQGatewayState)
    (h : st.pendingReconnects ≤ 1) :
    (handleInvalidSession st).sessionId = none ∧
    (handleInvalidSession st).lastSeq = none ∧
    (handleInvalidSession st).tokenCached = false ∧
    (handleInvalidSession st).socketOpen = false ∧
    (st.stopped = false → (handleInvalidSession st).pendingReconnects = 1) ∧
    (∀ evs : List QQReconnectEvent,
      (evs.foldl qqStep st).pendingReconnects ≤ 1) := by
  refine ⟨?_, ?_, ?_, ?_, ?_, fun evs => qq_fold_pending_le_one evs st h⟩
  · simp only [handleInvalidSession, scheduleReconnect, cleanupSocket, clearTimers]
    split <;> simp
  · simp only [handleInvalidSession, scheduleReconnect, cleanupSocket, clearTimers]
    split <;> simp
  · simp only [handleInvalidSession, scheduleReconnect, cleanupSocket, clearTimers]
    split <;> simp
  · simp only [handleInvalidSession, scheduleReconnect, cleanupSocket, clearTimers]
    split <;> simp
  · intro hstop
    simp [handleInvalidSession, scheduleReconnect, cleanupSocket, clearTimers, hstop]

/-- Witness for C9 at a concrete running state. -/
theorem qq_invalid_session_spec_witness :
    (handleInvalidSession ⟨false, 0, true, 3, some "sess", some 5, true, true⟩).sessionId
        = none ∧
    (handleInvalidSession ⟨false, 0, true, 3, some "sess", some 5, true, true⟩).lastSeq
        = none ∧
    (handleInvalidSession ⟨false, 0, true, 3, some "sess", some 5, true, true⟩).tokenCached
        = false ∧
    (handleInvalidSession ⟨false, 0, true, 3, some "sess", some 5, true, true⟩).socketOpen
        = false ∧
    ((false : Bool) = false →
      (handleInvalidSession
        ⟨false, 0, true, 3, some "sess", some 5, true, true⟩).pendingReconnects = 1) ∧
    (∀ evs : List QQReconnectEvent,
      (evs.foldl qqStep ⟨false, 0, true, 3, some "sess", some 5, true, true⟩).pendingReconnects
        ≤ 1) :=
  qq_invalid_session_spec ⟨false, 0, true, 3, some "sess", some 5, true, true⟩
    (by decide)

/-- C7 counterexample: a redelivered request whose msgid maps to an
existing stream is answered with the fixed placeholder (finish:false,
filler content), not with the persisted StreamState's accumulated
content and current finish flag, which the claim asserts. -/
theorem wecomApp_msgid_redelivery_counterexample :
    routeWecomAppMessage
        [("s1", ⟨"s1", some "m1", 0, 0, true, true, none, "hello"⟩)]
        [("m1", "s1")] "text" "" (some "m1") "new" 0 =
      .respondStream 200 (buildStreamPlaceholderReply "s1") ∧
    buildStreamPlaceholderReply "s1" = ⟨"s1", false, "稍等~"⟩ ∧
    buildStreamReplyFromState ⟨"s1", some "m1", 0, 0, true, true, none, "hello"⟩
      = ⟨"s1", true, "hello"⟩ ∧
    (StreamReplyPayload.mk "s1" false "稍等~") ≠ ⟨"s1", true, "hello"⟩ := by
  refine ⟨by decide, by decide, ?_, by decide⟩
  show StreamReplyPayload.mk "s1" true (truncateUtf8Bytes "hello" 512000)
      = ⟨"s1", true, "hello"⟩
  have : truncateUtf8Bytes "hello" 512000 = "hello" := by
    unfold truncateUtf8Bytes
    rw [if_pos (by decide)]
  rw [this]

/-- C7 (amended): after the initial placeholder, a msgtype=stream refresh
request carrying a known stream id is answered with the persisted
StreamState's latest accumulated content (truncated to the 512000-byte
cap, with the stream's current finish flag); a redelivered request whose
msgid is already mapped to an existing stream is answered with the stream
placeholder (same stream id, finish:false, filler text).  In both cases
agent processing is not restarted. -/
theorem wecomApp_poll_routing (streams : List (String × StreamState))
    (msgidToStreamId : List (String × String)) (newStreamId : String) (now : ℤ) :
    (∀ (sid : String) (state : StreamState) (msgid : Option String),
      sid ≠ "" → lookupStream streams sid = some state →
      routeWecomAppMessage streams msgidToStreamId "stream" sid msgid newStreamId now =
        .respondStream 200 (buildStreamReplyFromState state)) ∧
    (∀ (msgtype sid m targetSid : String),
      msgtype ≠ "stream" → lookupMsgid msgidToStreamId m = some targetSid →
      routeWecomAppMessage streams msgidToStreamId msgtype sid (some m) newStreamId now =
        .respondStream 200 (buildStreamPlaceholderReply targetSid)) := by
  constructor
  · intro sid state msgid hsid hfound
    unfold routeWecomAppMessage
    rw [if_pos rfl, if_neg hsid, hfound]
  · intro msgtype sid m targetSid hmt hmap
    unfold routeWecomAppMessage
    rw [if_neg hmt]
    show (match lookupMsgid msgidToStreamId m with
      | some sid => WebhookDecision.respondStream 200 (buildStreamPlaceholderReply sid)
      | none =>
        if msgtype = "event" then .respondEventAck 200
        else .startProcessing newStreamId 200 (buildStreamPlaceholderReply newStreamId)) =
      .respondStream 200 (buildStreamPlaceholderReply targetSid)
    rw [hmap]

/-- Witness for C7 at concrete streams and messages. -/
theorem wecomApp_poll_routing_witness :
    routeWecomAppMessage [("s1", ⟨"s1", some "m1", 0, 0, true, true, none, "hello"⟩)]
        [("m1", "s1")] "stream" "s1" none "new" 0 =
      .respondStream 200
        (buildStreamReplyFromState ⟨"s1", some "m1", 0, 0, true, true, none, "hello"⟩) ∧
    routeWecomAppMessage [("s1", ⟨"s1", some "m1", 0, 0, true, true, none, "hello"⟩)]
        [("m1", "s1")] "text" "" (some "m1") "new" 0 =
      .respondStream 200 (buildStreamPlaceholderReply "s1") :=
  ⟨(wecomApp_poll_routing _ _ "new" 0).1 "s1" _ none (by decide) rfl,
   (wecomApp_poll_routing _ _ "new" 0).2 "text" "" "m1" "s1" (by decide) rfl⟩

/-- C10: a msgtype=stream refresh whose stream id is not in the stream map
is still answered with status 200 and an (encrypted) stream reply whose
finish flag is true and whose content is empty; and an entry whose
updatedAt is older than the 10-minute TTL is indeed gone from the map
after pruneStreams, which is one way the id becomes unknown. -/
theorem wecomApp_unknown_stream_spec (streams : List (String × StreamState))
    (msgidToStreamId : List (String × String)) (sid : String)
    (msgid : Option String) (newStreamId : String) (now : ℤ)
    (hsid : sid ≠ "") (hmiss : lookupStream streams sid = none) :
    routeWecomAppMessage streams msgidToStreamId "stream" sid msgid newStreamId now =
      .respondStream 200 ⟨sid, true, ""⟩ ∧
    (∀ (streams2 : List (String × StreamState)) (now2 : ℤ) (id : String),
      (∀ e ∈ streams2, e.1 = id → e.2.updatedAt < now2 - 600000) →
      lookupStream (pruneStreams now2 streams2) id = none) := by
  constructor
  · unfold routeWecomAppMessage
    rw [if_pos rfl, if_neg hsid, hmiss]
    have htr : truncateUtf8Bytes "" 512000 = "" := by decide
    show WebhookDecision.respondStream 200
        ⟨if sid = "" then "unknown" else sid, true, truncateUtf8Bytes "" 512000⟩
      = .respondStream 200 ⟨sid, true, ""⟩
    rw [htr, if_neg hsid]
  · intro streams2 now2 id hstale
    unfold lookupStream pruneStreams
    rw [List.find?_eq_none.mpr]
    · rfl
    · intro e he
      rw [List.mem_filter] at he
      intro hbeq
      have hkey : e.1 = id := by
        simpa using hbeq
      have h1 := hstale e he.1 hkey
      have h2 := of_decide_eq_true he.2
      omega

/-- Witness for C10 with an empty stream map and a stale pruned entry. -/
theorem wecomApp_unknown_stream_spec_witness :
    routeWecomAppMessage [] [] "stream" "s9" none "new" 0 =
      .respondStream 200 ⟨"s9", true, ""⟩ ∧
    (∀ (streams2 : List (String × StreamState)) (now2 : ℤ) (id : String),
      (∀ e ∈ streams2, e.1 = id → e.2.updatedAt < now2 - 600000) →
      lookupStream (pruneStreams now2 streams2) id = none) :=
  wecomApp_unknown_stream_spec [] [] "s9" none "new" 0 (by decide) rfl

theorem mapGet_eq_none_iff (m : DedupCache) (k : String) :
    mapGet m k = none ↔ ∀ e ∈ m, e.1 ≠ k := by
  unfold mapGet
  rw [Option.map_eq_none', List.find?_eq_none]
  constructor
  · intro h e he
    have := h e he
    simpa using this
  · intro h e he
    simpa using h e he

theorem mapSet_of_fresh (m : DedupCache) (k : String) (v : ℤ)
    (h : ∀ e ∈ m, e.1 ≠ k) : mapSet m k v = m ++ [(k, v)] := by
  induction m with
  | nil => rfl
  | cons e rest ih =>
    unfold mapSet
    rw [if_neg (h e (List.mem_cons_self e rest))]
    rw [ih (fun x hx => h x (List.mem_cons_of_mem e hx))]
    rfl

theorem evictOldest_append_single (l : DedupCache) (e : String × ℤ) :
    ∃ l2, evictOldest (l ++ [e]) = l2 ++ [e] ∧ l2.Sublist l := by
  induction l with
  | nil =>
    refine ⟨[], ?_, List.Sublist.refl []⟩
    simp [evictOldest]
  | cons x rest ih =>
    show ∃ l2, evictOldest (x :: (rest ++ [e])) = l2 ++ [e] ∧ l2.Sublist (x :: rest)
    unfold evictOldest
    by_cases hlen : 10000 < (rest ++ [e]).length + 1
    · rw [if_pos hlen]
      obtain ⟨l2, h1, h2⟩ := ih
      exact ⟨l2, h1, h2.cons x⟩
    · rw [if_neg hlen]
      exact ⟨x :: rest, rfl, List.Sublist.refl _⟩

theorem mapGet_append_single (l : DedupCache) (k : String) (v : ℤ)
    (h : ∀ e ∈ l, e.1 ≠ k) : mapGet (l ++ [(k, v)]) k = some v := by
  unfold mapGet
  rw [List.find?_append]
  have hnone : l.find? (fun e => e.1 == k) = none := by
    rw [List.find?_eq_none]
    intro e he
    simpa using h e he
  rw [hnone]
  simp

theorem fresh_insert_lookup (c : DedupCache) (k : String) (t : ℤ)
    (h : mapGet c k = none) :
    mapGet (trimMessageDedupeCache t (mapSet c k t)) k = some t := by
  have hkeys := (mapGet_eq_none_iff c k).mp h
  rw [mapSet_of_fresh c k t hkeys]
  unfold trimMessageDedupeCache
  rw [List.filter_append]
  have hkeep : List.filter (fun e => decide (t - e.2 ≤ 60000)) [(k, t)] = [(k, t)] := by
    simp
  rw [hkeep]
  obtain ⟨l2, heq, hsub⟩ :=
    evictOldest_append_single (List.filter (fun e => decide (t - e.2 ≤ 60000)) c) (k, t)
  rw [heq]
  refine mapGet_append_single l2 k t ?_
  intro e he
  exact hkeys e (List.mem_of_mem_filter (hsub.mem he))

/-- C2: for a fresh message id, the first delivery is dispatched; a second
delivery within the 60-second dedup TTL window is dropped as a dedupe hit
(but still ACKed), so exactly one dispatch happens; a second delivery at
or after TTL expiry is dispatched again. -/
theorem dingtalk_dedup_spec (c : DedupCache) (m : String) (t1 t2 : ℤ)
    (hfresh : mapGet c m = none) (horder : t1 ≤ t2) :
    ((processDingtalkInbound c (some m) t1 true).1 =
      ⟨true, false, true⟩) ∧
    (t2 - t1 < 60000 →
      (processDingtalkInbound (processDingtalkInbound c (some m) t1 true).2
        (some m) t2 true).1 = ⟨true, true, false⟩) ∧
    (60000 ≤ t2 - t1 →
      (processDingtalkInbound (processDingtalkInbound c (some m) t1 true).2
        (some m) t2 true).1 = ⟨true, false, true⟩) := by
  have hfirst : processDingtalkInbound c (some m) t1 true =
      (⟨true, false, true⟩, trimMessageDedupeCache t1 (mapSet c m t1)) := by
    simp [processDingtalkInbound, isDuplicateMessage, hfresh]
  have hc1 : mapGet (trimMessageDedupeCache t1 (mapSet c m t1)) m = some t1 :=
    fresh_insert_lookup c m t1 hfresh
  refine ⟨by rw [hfirst], ?_, ?_⟩
  · intro hwin
    rw [hfirst]
    simp [processDingtalkInbound, isDuplicateMessage, hc1, hwin]
  · intro hexp
    have hn : ¬(t2 - t1 < 60000) := by omega
    rw [hfirst]
    simp [processDingtalkInbound, isDuplicateMessage, hc1, hn]

/-- Witness for C2 with an empty cache, id m1, deliveries at 0 and 1. -/
theorem dingtalk_dedup_spec_witness :
    ((processDingtalkInbound [] (some "m1") 0 true).1 =
      ⟨true, false, true⟩) ∧
    ((1 : ℤ) - 0 < 60000 →
      (processDingtalkInbound (processDingtalkInbound [] (some "m1") 0 true).2
        (some "m1") 1 true).1 = ⟨true, true, false⟩) ∧
    ((60000 : ℤ) ≤ 1 - 0 →
      (processDingtalkInbound (processDingtalkInbound [] (some "m1") 0 true).2
        (some "m1") 1 true).1 = ⟨true, false, true⟩) :=
  dingtalk_dedup_spec [] "m1" 0 1 rfl (by norm_num)

theorem charListLe_total : ∀ as bs : List Char,
    WXBizJsonMsgCrypt.charListLe as bs = true ∨
    WXBizJsonMsgCrypt.charListLe bs as = true := by
  intro as
  induction as with
  | nil => intro bs; left; rfl
  | cons a as ih =>
    intro bs
    cases bs with
    | nil => right; rfl
    | cons b bs =>
      by_cases hab : a.toNat < b.toNat
      · left
        unfold WXBizJsonMsgCrypt.charListLe
        rw [if_pos hab]
      · by_cases hba : b.toNat < a.toNat
        · right
          unfold WXBizJsonMsgCrypt.charListLe
          rw [if_pos hba]
        · rcases ih bs with h | h
          · left
            unfold WXBizJsonMsgCrypt.charListLe
            rw [if_neg hab, if_neg hba]
            exact h
          · right
            unfold WXBizJsonMsgCrypt.charListLe
            rw [if_neg hba, if_neg hab]
            exact h

theorem charListLe_trans : ∀ as bs cs : List Char,
    WXBizJsonMsgCrypt.charListLe as bs = true →
    WXBizJsonMsgCrypt.charListLe bs cs = true →
    WXBizJsonMsgCrypt.charListLe as cs = true := by
  intro as
  induction as with
  | nil => intro bs cs _ _; rfl
  | cons a as ih =>
    intro bs cs hab hbc
    cases bs with
    | nil => exact absurd hab (by simp [WXBizJsonMsgCrypt.charListLe])
    | cons b bs =>
      cases cs with
      | nil => exact absurd hbc (by simp [WXBizJsonMsgCrypt.charListLe])
      | cons c cs =>
        unfold WXBizJsonMsgCrypt.charListLe at hab hbc ⊢
        split_ifs at hab hbc ⊢ <;>
          first
            | rfl
            | (exact Bool.noConfusion hab)
            | (exact Bool.noConfusion hbc)
            | (exact ih bs cs hab hbc)
            | omega

theorem charListLe_antisymm : ∀ as bs : List Char,
    WXBizJsonMsgCrypt.charListLe as bs = true →
    WXBizJsonMsgCrypt.charListLe bs as = true → as = bs := by
  intro as
  induction as with
  | nil =>
    intro bs _ hba
    cases bs with
    | nil => rfl
    | cons b bs => exact absurd hba (by simp [WXBizJsonMsgCrypt.charListLe])
  | cons a as ih =>
    intro bs hab hba
    cases bs with
    | nil => exact absurd hab (by simp [WXBizJsonMsgCrypt.charListLe])
    | cons b bs =>
      unfold WXBizJsonMsgCrypt.charListLe at hab hba
      by_cases h1 : a.toNat < b.toNat
      · rw [if_neg (by omega), if_pos h1] at hba
        exact absurd hba (by simp)
      · by_cases h2 : b.toNat < a.toNat
        · rw [if_neg h1, if_pos h2] at hab
          exact absurd hab (by simp)
        · rw [if_neg h1, if_neg h2] at hab
          rw [if_neg h2, if_neg h1] at hba
          have heq : a = b := by
            have hn : a.toNat = b.toNat := by omega
            have := congrArg Char.ofNat hn
            rwa [Char.ofNat_toNat, Char.ofNat_toNat] at this
          rw [heq, ih bs hab hba]

/-- C4 (amended): the webhook signature is SHA-1 over the lexicographically
sorted concatenation of (token, timestamp, nonce, encrypt), so the digest
is invariant under every permutation of the four inputs.  (The second half
of the original claim — that changing any single input always changes the
digest — is false; see the counterexample.) -/
theorem getSignature_perm_invariant (sha1Hex : String → String)
    (a b c d a2 b2 c2 d2 : String)
    (hperm : ([a, b, c, d] : List String).Perm [a2, b2, c2, d2]) :
    WXBizJsonMsgCrypt.getSignature sha1Hex a b c d =
      WXBizJsonMsgCrypt.getSignature sha1Hex a2 b2 c2 d2 := by
  haveI : IsTotal String WXBizJsonMsgCrypt.jsStrLe :=
    ⟨fun s t => charListLe_total s.data t.data⟩
  haveI : IsTrans String WXBizJsonMsgCrypt.jsStrLe :=
    ⟨fun s t u => charListLe_trans s.data t.data u.data⟩
  haveI : IsAntisymm String WXBizJsonMsgCrypt.jsStrLe :=
    ⟨fun s t hst hts => congrArg String.mk (charListLe_antisymm s.data t.data hst hts)⟩
  have hsorted : List.insertionSort WXBizJsonMsgCrypt.jsStrLe [a, b, c, d] =
      List.insertionSort WXBizJsonMsgCrypt.jsStrLe [a2, b2, c2, d2] := by
    refine List.eq_of_perm_of_sorted ?_
      (List.sorted_insertionSort WXBizJsonMsgCrypt.jsStrLe [a, b, c, d])
      (List.sorted_insertionSort WXBizJsonMsgCrypt.jsStrLe [a2, b2, c2, d2])
    exact ((List.perm_insertionSort _ _).trans hperm).trans
      (List.perm_insertionSort _ _).symm
  unfold WXBizJsonMsgCrypt.getSignature WXBizJsonMsgCrypt.getSignatureInput
  rw [hsorted]

/-- Witness for C4's amended theorem on a concrete permutation. -/
theorem getSignature_perm_invariant_witness :
    WXBizJsonMsgCrypt.getSignature (fun s => s) "tok" "ts" "non" "enc" =
      WXBizJsonMsgCrypt.getSignature (fun s => s) "enc" "non" "ts" "tok" :=
  getSignature_perm_invariant (fun s => s) "tok" "ts" "non" "enc"
    "enc" "non" "ts" "tok" (by decide)

/-- C4 counterexample: changing the single input encrypt from "ab" to "ba"
while holding token = "aba", timestamp = "" and nonce = "" fixed leaves
the sorted concatenation — and hence the SHA-1 digest computed from it —
unchanged, refuting the claim that changing any single input changes the
digest. -/
theorem getSignature_single_change_counterexample :
    WXBizJsonMsgCrypt.getSignatureInput "aba" "" "" "ab" =
      WXBizJsonMsgCrypt.getSignatureInput "aba" "" "" "ba" ∧
    WXBizJsonMsgCrypt.getSignature (fun s => s) "aba" "" "" "ab" =
      WXBizJsonMsgCrypt.getSignature (fun s => s) "aba" "" "" "ba" ∧
    ("ab" : String) ≠ "ba" := by
  refine ⟨by decide, ?_, by decide⟩
  show WXBizJsonMsgCrypt.getSignatureInput "aba" "" "" "ab" =
    WXBizJsonMsgCrypt.getSignatureInput "aba" "" "" "ba"
  decide

theorem encodeCharUtf8_length_le (cp : ℕ) : (encodeCharUtf8 cp).length ≤ 4 := by
  unfold encodeCharUtf8
  split_ifs <;> simp

theorem split_fold_concat (maxBytes : ℕ) :
    ∀ (cs : List Char) (res : List (List Char)) (cur : List Char) (n : ℕ),
    (if (List.foldl (splitStep maxBytes) (res, cur, n) cs).2.1 ≠ [] then
        (List.foldl (splitStep maxBytes) (res, cur, n) cs).1 ++
          [(List.foldl (splitStep maxBytes) (res, cur, n) cs).2.1]
      else (List.foldl (splitStep maxBytes) (res, cur, n) cs).1).flatten =
      res.flatten ++ cur ++ cs := by
  intro cs
  induction cs with
  | nil =>
    intro res cur n
    by_cases h : cur ≠ [] <;> simp [List.foldl, h]
    · simp at h
      simp [h]
  | cons c cs ih =>
    intro res cur n
    rw [List.foldl_cons]
    by_cases hc : maxBytes < n + (encodeCharUtf8 c.toNat).length ∧ cur ≠ []
    · have hstep : splitStep maxBytes (res, cur, n) c =
          (res ++ [cur], [c], (encodeCharUtf8 c.toNat).length) := by
        unfold splitStep
        rw [if_pos hc]
      rw [hstep, ih (res ++ [cur]) [c] ((encodeCharUtf8 c.toNat).length)]
      simp
    · have hstep : splitStep maxBytes (res, cur, n) c =
          (res, cur ++ [c], n + (encodeCharUtf8 c.toNat).length) := by
        unfold splitStep
        rw [if_neg hc]
      rw [hstep, ih res (cur ++ [c]) (n + (encodeCharUtf8 c.toNat).length)]
      simp

theorem split_fold_bound (maxBytes : ℕ) (hmax : 4 ≤ maxBytes) :
    ∀ (cs : List Char) (res : List (List Char)) (cur : List Char) (n : ℕ),
    (∀ l ∈ res, (l.flatMap (fun c => encodeCharUtf8 c.toNat)).length ≤ maxBytes) →
    (cur.flatMap (fun c => encodeCharUtf8 c.toNat)).length ≤ maxBytes →
    n = (cur.flatMap (fun c => encodeCharUtf8 c.toNat)).length →
    ∀ l ∈ (if (List.foldl (splitStep maxBytes) (res, cur, n) cs).2.1 ≠ [] then
        (List.foldl (splitStep maxBytes) (res, cur, n) cs).1 ++
          [(List.foldl (splitStep maxBytes) (res, cur, n) cs).2.1]
      else (List.foldl (splitStep maxBytes) (res, cur, n) cs).1),
      (l.flatMap (fun c => encodeCharUtf8 c.toNat)).length ≤ maxBytes := by
  intro cs
  induction cs with
  | nil =>
    intro res cur n hres hcur hn l hl
    rw [List.foldl_nil] at hl
    by_cases h : cur ≠ []
    · rw [if_pos h] at hl
      rcases List.mem_append.mp hl with h1 | h1
      · exact hres l h1
      · rw [List.mem_singleton.mp h1]
        exact hcur
    · rw [if_neg h] at hl
      exact hres l hl
  | cons c cs ih =>
    intro res cur n hres hcur hn l hl
    rw [List.foldl_cons] at hl
    by_cases hc : maxBytes < n + (encodeCharUtf8 c.toNat).length ∧ cur ≠ []
    · have hstep : splitStep maxBytes (res, cur, n) c =
          (res ++ [cur], [c], (encodeCharUtf8 c.toNat).length) := by
        unfold splitStep
        rw [if_pos hc]
      rw [hstep] at hl
      refine ih (res ++ [cur]) [c] ((encodeCharUtf8 c.toNat).length) ?_ ?_ ?_ l hl
      · intro l2 hl2
        rcases List.mem_append.mp hl2 with h1 | h1
        · exact hres l2 h1
        · rw [List.mem_singleton.mp h1]
          exact hcur
      · simpa using (encodeCharUtf8_length_le c.toNat).trans hmax
      · simp
    · have hstep : splitStep maxBytes (res, cur, n) c =
          (res, cur ++ [c], n + (encodeCharUtf8 c.toNat).length) := by
        unfold splitStep
        rw [if_neg hc]
      rw [hstep] at hl
      refine ih res (cur ++ [c]) (n + (encodeCharUtf8 c.toNat).length) hres ?_ ?_ l hl
      · rw [List.flatMap_append]
        simp only [List.length_append]
        rcases not_and_or.mp hc with h1 | h1
        · have h2 : n + (encodeCharUtf8 c.toNat).length ≤ maxBytes := by omega
          simpa [hn] using h2
        · have h2 : cur = [] := not_not.mp h1
          subst h2
          simpa using (encodeCharUtf8_length_le c.toNat).trans hmax
      · rw [List.flatMap_append, List.length_append, hn]
        simp

theorem join_map_mk (ls : List (List Char)) :
    String.join (ls.map String.mk) = String.mk ls.flatten := by
  rw [String.join_eq]
  show String.mk ((ls.map String.mk).map String.data).flatten = String.mk ls.flatten
  rw [List.map_map]
  show String.mk (ls.map id).flatten = String.mk ls.flatten
  rw [List.map_id]

/-- C6: splitMessageByBytes with the 2048-byte limit never splits a
character across chunks (chunks are whole-character sequences and every
chunk's UTF-8 encoding is at most 2048 bytes), and concatenating all
chunks in order reproduces the original string exactly. -/
theorem splitMessageByBytes_spec (text : String) :
    String.join (splitMessageByBytes text 2048) = text ∧
    ∀ chunk ∈ splitMessageByBytes text 2048, utf8ByteLength chunk ≤ 2048 := by
  constructor
  · unfold splitMessageByBytes
    rw [join_map_mk]
    rw [split_fold_concat 2048 text.data [] [] 0]
    show String.mk text.data = text
    rfl
  · intro chunk hchunk
    unfold splitMessageByBytes at hchunk
    rcases List.mem_map.mp hchunk with ⟨l, hl, hmk⟩
    have := split_fold_bound 2048 (by norm_num) text.data [] [] 0
      (by intro l2 hl2; simp at hl2) (by simp) (by simp) l hl
    rw [← hmk]
    exact this

/-- Witness for C6 on the concrete string "ab". -/
theorem splitMessageByBytes_spec_witness :
    String.join (splitMessageByBytes "ab" 2048) = "ab" ∧
    utf8ByteLength "ab" ≤ 2048 :=
  ⟨(splitMessageByBytes_spec "ab").1,
   (splitMessageByBytes_spec "ab").2 "ab" (by decide)⟩

set_option maxRecDepth 8192

theorem utf8DecodeStep_encode (cp : ℕ) (h : Nat.isValidChar cp) (rest : List ℕ) :
    utf8DecodeStep (encodeCharUtf8 cp ++ rest) = (cp, rest) := by
  have hcp : cp < 1114112 := by
    rcases h with h | h
    · omega
    · omega
  by_cases h1 : cp < 128
  · have he : encodeCharUtf8 cp = [cp] := by
      unfold encodeCharUtf8
      rw [if_pos h1]
    rw [he]
    show utf8DecodeStep (cp :: rest) = (cp, rest)
    simp only [utf8DecodeStep]
    rw [if_pos (by omega)]
  · by_cases h2 : cp < 2048
    · have he : encodeCharUtf8 cp = [192 + cp / 64, 128 + cp % 64] := by
        unfold encodeCharUtf8
        rw [if_neg h1, if_pos h2]
      rw [he]
      show utf8DecodeStep ((192 + cp / 64) :: (128 + cp % 64) :: rest) = (cp, rest)
      simp only [utf8DecodeStep]
      rw [if_neg (by omega), if_neg (by omega), if_pos (by omega), if_pos (by omega)]
      have harith : (192 + cp / 64 - 192) * 64 + (128 + cp % 64 - 128) = cp := by omega
      rw [harith]
    · by_cases h3 : cp < 65536
      · have hns : ¬(55296 ≤ cp ∧ cp ≤ 57343) := by
          rcases h with h | h
          · omega
          · omega
        have he : encodeCharUtf8 cp = [224 + cp / 4096, 128 + cp / 64 % 64, 128 + cp % 64] := by
          unfold encodeCharUtf8
          rw [if_neg h1, if_neg h2, if_pos h3]
        rw [he]
        show utf8DecodeStep ((224 + cp / 4096) :: (128 + cp / 64 % 64) :: (128 + cp % 64) :: rest)
          = (cp, rest)
        simp only [utf8DecodeStep]
        rw [if_neg (by omega), if_neg (by omega), if_neg (by omega), if_pos (by omega)]
        rw [if_pos (by constructor <;> split <;> omega)]
        rw [if_pos (by omega)]
        have harith : (224 + cp / 4096 - 224) * 4096 + (128 + cp / 64 % 64 - 128) * 64 +
            (128 + cp % 64 - 128) = cp := by omega
        rw [harith]
      · have he : encodeCharUtf8 cp =
            [240 + cp / 262144, 128 + cp / 4096 % 64, 128 + cp / 64 % 64, 128 + cp % 64] := by
          unfold encodeCharUtf8
          rw [if_neg h1, if_neg h2, if_neg h3]
        rw [he]
        show utf8DecodeStep ((240 + cp / 262144) :: (128 + cp / 4096 % 64) ::
          (128 + cp / 64 % 64) :: (128 + cp % 64) :: rest) = (cp, rest)
        simp only [utf8DecodeStep]
        rw [if_neg (by omega), if_neg (by omega), if_neg (by omega), if_neg (by omega),
          if_pos (by omega)]
        rw [if_pos (by constructor <;> split <;> omega)]
        rw [if_pos (by omega), if_pos (by omega)]
        have harith : (240 + cp / 262144 - 240) * 262144 + (128 + cp / 4096 % 64 - 128) * 4096 +
            (128 + cp / 64 % 64 - 128) * 64 + (128 + cp % 64 - 128) = cp := by omega
        rw [harith]

theorem utf8DecodeCodepoints_cons (b : ℕ) (rest : List ℕ) :
    utf8DecodeCodepoints (b :: rest) =
      (utf8DecodeStep (b :: rest)).1 ::
        utf8DecodeCodepoints (utf8DecodeStep (b :: rest)).2 := by
  rw [utf8DecodeCodepoints]

theorem utf8DecodeCodepoints_encode (cp : ℕ) (h : Nat.isValidChar cp) (rest : List ℕ) :
    utf8DecodeCodepoints (encodeCharUtf8 cp ++ rest) = cp :: utf8DecodeCodepoints rest := by
  have hne : ∃ b l, encodeCharUtf8 cp ++ rest = b :: l := by
    unfold encodeCharUtf8
    split_ifs <;> exact ⟨_, _, rfl⟩
  obtain ⟨b, l, hb⟩ := hne
  rw [hb, utf8DecodeCodepoints_cons, ← hb, utf8DecodeStep_encode cp h rest]

theorem utf8Decode_flatMap_encode (cps : List ℕ) (h : ∀ cp ∈ cps, Nat.isValidChar cp) :
    utf8DecodeCodepoints (cps.flatMap encodeCharUtf8) = cps := by
  induction cps with
  | nil =>
    simp only [List.flatMap_nil]
    rw [utf8DecodeCodepoints]
  | cons cp cps ih =>
    rw [List.flatMap_cons,
      utf8DecodeCodepoints_encode cp (h cp (List.mem_cons_self cp cps)) _,
      ih (fun c hc => h c (List.mem_cons_of_mem cp hc))]

theorem utf8DecodeStr_utf8Encode (s : String) : utf8DecodeStr (utf8Encode s) = s := by
  unfold utf8DecodeStr utf8Encode
  have h1 : s.data.flatMap (fun c => encodeCharUtf8 c.toNat) =
      (s.data.map Char.toNat).flatMap encodeCharUtf8 := by
    rw [List.flatMap_map]
  rw [h1, utf8Decode_flatMap_encode _ ?hval]
  case hval =>
    intro cp hcp
    rcases List.mem_map.mp hcp with ⟨c, _, rfl⟩
    exact c.valid
  rw [List.map_map]
  rw [show (Char.ofNat ∘ Char.toNat) = id from funext Char.ofNat_toNat, List.map_id]

theorem readUInt32BE_writeUInt32BE (n : ℕ) (h : n < 4294967296) (rest : List ℕ) :
    readUInt32BE (writeUInt32BE n ++ rest) = n := by
  show readUInt32BE ((n / 16777216 % 256) :: (n / 65536 % 256) :: (n / 256 % 256) ::
    (n % 256) :: rest) = n
  simp only [readUInt32BE]
  omega

/-- C3: for every plaintext string and receiverId, decrypting the result of
encrypting with the same key (the AES-256-CBC primitive of node:crypto and
its inverse are abstracted by cipher/decipher with decipher ∘ cipher = id,
which holds for AES-256-CBC under any EncodingAESKey that base64-decodes
to 32 bytes) returns the original plaintext: the envelope written as
[16 random bytes][4-byte big-endian content byte length][content]
[receiverId], PKCS#7-padded to a 32-byte boundary, is inverted exactly by
the pad strip, length-field read, content slice and receiverId check of
decrypt. -/
theorem wecom_crypto_roundtrip (cipher decipher : List ℕ → List ℕ)
    (hinv : ∀ x, decipher (cipher x) = x) (receiverId text : String)
    (random : List ℕ) (hrand : random.length = 16)
    (hlen : (utf8Encode text).length < 4294967296) :
    WXBizJsonMsgCrypt.decrypt decipher receiverId
      (WXBizJsonMsgCrypt.encrypt cipher receiverId random text) = .ok text := by
  simp only [WXBizJsonMsgCrypt.encrypt, WXBizJsonMsgCrypt.decrypt]
  rw [hinv]
  set C := utf8Encode text with hC
  set R := utf8Encode receiverId with hR
  set plain := random ++ writeUInt32BE C.length ++ C ++ R with hplain
  set padLen := 32 - plain.length % 32 with hpadLen
  have hlp : (writeUInt32BE C.length).length = 4 := rfl
  have hassoc : plain = random ++ (writeUInt32BE C.length ++ (C ++ R)) := by
    rw [hplain, List.append_assoc, List.append_assoc]
  have hplen : plain.length = 20 + C.length + R.length := by
    rw [hassoc]
    simp only [List.length_append, hrand, hlp]
    omega
  have hpad1 : 1 ≤ padLen := by
    rw [hpadLen]
    omega
  have hpad2 : padLen ≤ 32 := by
    rw [hpadLen]
    omega
  have hlast : ((plain ++ List.replicate padLen padLen).getLast?).getD 0 = padLen := by
    rw [List.getLast?_append, List.getLast?_replicate, if_neg (by omega)]
    rfl
  rw [hlast, if_pos (show 0 < padLen ∧ padLen ≤ 32 from ⟨by omega, hpad2⟩)]
  have hstrip : (plain ++ List.replicate padLen padLen).take
      ((plain ++ List.replicate padLen padLen).length - padLen) = plain := by
    have hl2 : (plain ++ List.replicate padLen padLen).length - padLen = plain.length := by
      simp [List.length_append, List.length_replicate]
    rw [hl2, List.take_left]
  rw [hstrip, if_neg (by omega : ¬plain.length < 20)]
  have hdrop16 : plain.drop 16 = writeUInt32BE C.length ++ (C ++ R) := by
    rw [hassoc, ← hrand, List.drop_left]
  have hread : readUInt32BE (plain.drop 16) = C.length := by
    rw [hdrop16]
    exact readUInt32BE_writeUInt32BE C.length hlen (C ++ R)
  rw [hread]
  have hdrop20 : plain.drop 20 = C ++ R := by
    have h1 : (plain.drop 16).drop 4 = plain.drop 20 := by
      rw [List.drop_drop]
    rw [← h1, hdrop16, ← hlp, List.drop_left]
  have htake : (plain.drop 20).take C.length = C := by
    rw [hdrop20, List.take_left]
  rw [htake]
  have hdropR : plain.drop (20 + C.length) = R := by
    have h1 : (plain.drop 20).drop C.length = plain.drop (20 + C.length) := by
      rw [List.drop_drop]
    rw [← h1, hdrop20, List.drop_left]
  rw [hdropR, hC, hR, utf8DecodeStr_utf8Encode text, utf8DecodeStr_utf8Encode receiverId]
  rw [if_neg (by simp)]

/-- Witness for C3: identity cipher pair, receiverId "corp", a concrete
16-byte random block, multi-byte plaintext "中A". -/
theorem wecom_crypto_roundtrip_witness :
    WXBizJsonMsgCrypt.decrypt id "corp"
      (WXBizJsonMsgCrypt.encrypt id "corp" (List.replicate 16 0) "中A") = .ok "中A" :=
  wecom_crypto_roundtrip id id (fun _ => rfl) "corp" "中A" (List.replicate 16 0)
    (by decide) (by decide)

theorem encodeCharUtf8_cjk : encodeCharUtf8 ('中'.toNat) = [228, 184, 173] := by
  decide

theorem flatMap_replicate_cjk_length (n : ℕ) :
    ((List.replicate n '中').flatMap (fun c => encodeCharUtf8 c.toNat)).length = 3 * n := by
  induction n with
  | zero => rfl
  | succ n ih =>
    rw [List.replicate_succ, List.flatMap_cons, List.length_append, ih, encodeCharUtf8_cjk]
    simp
    omega

theorem drop4_flatMap_replicate_cjk (m : ℕ) :
    ((List.replicate (m + 2) '中').flatMap (fun c => encodeCharUtf8 c.toNat)).drop 4 =
      184 :: 173 :: (List.replicate m '中').flatMap (fun c => encodeCharUtf8 c.toNat) := by
  rw [List.replicate_succ, List.flatMap_cons, List.replicate_succ, List.flatMap_cons,
    encodeCharUtf8_cjk]
  rfl

theorem decode_flatMap_replicate_cjk (m : ℕ) :
    utf8DecodeCodepoints
        ((List.replicate m '中').flatMap (fun c => encodeCharUtf8 c.toNat)) =
      List.replicate m 20013 := by
  induction m with
  | zero =>
    simp only [List.replicate, List.flatMap_nil]
    rw [utf8DecodeCodepoints]
  | succ m ih =>
    rw [List.replicate_succ, List.flatMap_cons,
      show ('中'.toNat) = 20013 from rfl,
      utf8DecodeCodepoints_encode 20013 (Or.inl (by norm_num)) _, ih,
      List.replicate_succ]

theorem decode_two_continuation_bytes (l : List ℕ) :
    utf8DecodeCodepoints (184 :: 173 :: l) =
      65533 :: 65533 :: utf8DecodeCodepoints l := by
  have h1 : utf8DecodeStep (184 :: 173 :: l) = (65533, 173 :: l) := by
    simp only [utf8DecodeStep]
    rw [if_neg (by omega), if_pos (by omega)]
  have h2 : utf8DecodeStep (173 :: l) = (65533, l) := by
    simp only [utf8DecodeStep]
    rw [if_neg (by omega), if_pos (by omega)]
  rw [utf8DecodeCodepoints_cons, h1]
  show 65533 :: utf8DecodeCodepoints (173 :: l) = 65533 :: 65533 :: utf8DecodeCodepoints l
  rw [utf8DecodeCodepoints_cons, h2]

/-- C5 (code bug evaluation): on a StreamState whose content is 170668
copies of '中' (512004 UTF-8 bytes), buildStreamReplyFromState returns
content whose UTF-8 encoding is 512004 bytes — above the 512000-byte cap
claimed by the spec.  The byte-level suffix slice cuts the first kept
character in half; the two orphan continuation bytes each decode to
U+FFFD (3 UTF-8 bytes when re-encoded), so the result re-encodes to
512000 + 4 bytes. -/
theorem buildStreamReplyFromState_exceeds_cap :
    utf8ByteLength
      ((buildStreamReplyFromState
        { streamId := "s", msgid := none, createdAt := 0, updatedAt := 0,
          started := true, finished := false, error := none,
          content := String.mk (List.replicate 170668 '中') }).content) = 512004 := by
  simp only [buildStreamReplyFromState]
  simp only [truncateUtf8Bytes]
  have hbuf : utf8Encode (String.mk (List.replicate 170668 '中')) =
      (List.replicate 170668 '中').flatMap (fun c => encodeCharUtf8 c.toNat) := rfl
  have hlen3 : ((List.replicate 170668 '中').flatMap
      (fun c => encodeCharUtf8 c.toNat)).length = 512004 := by
    rw [flatMap_replicate_cjk_length]
  rw [hbuf, hlen3, if_neg (by norm_num)]
  rw [show (512004 - 512000 : ℕ) = 4 from by norm_num]
  rw [show (170668 : ℕ) = 170666 + 2 from by norm_num, drop4_flatMap_replicate_cjk]
  unfold utf8DecodeStr
  rw [decode_two_continuation_bytes, decode_flatMap_replicate_cjk]
  rw [List.map_cons, List.map_cons, List.map_replicate]
  rw [show Char.ofNat 20013 = '中' from by decide]
  show ((Char.ofNat 65533 :: Char.ofNat 65533 :: List.replicate 170666 '中').flatMap
    (fun c => encodeCharUtf8 c.toNat)).length = 512004
  rw [List.flatMap_cons, List.flatMap_cons, List.length_append, List.length_append,
    flatMap_replicate_cjk_length]
  rw [show (encodeCharUtf8 ((Char.ofNat 65533).toNat)).length = 3 from by decide]
